import Mathlib

/-!
Verification development for the PDRbot harvest-and-assembly pipeline
(`pdrbot.py`, `scraper.py`).  The Python source is shallowly embedded:
pure fragments become Lean functions, the filesystem becomes an explicit
association list from paths to contents, and network behaviour is an
explicit oracle mapping attempt indices to responses.  Machine integers
do not overflow in the modelled code paths, so `Nat` is used directly.
-/

namespace PDRbot

/-! ## String helpers

`strContains s pat` models the Python expression `pat in s` (substring
test).  `String.toLower` models `str.lower()` on the ASCII inputs the
program handles. -/

def containsAux (pat : List Char) : List Char → Bool
  | [] => pat.isEmpty
  | c :: rest => pat.isPrefixOf (c :: rest) || containsAux pat rest

def strContains (s pat : String) : Bool :=
  containsAux pat.data s.data

/-- `str.lower()`: character-wise ASCII lowercasing (the program only
handles ASCII court-site text). -/
def strToLower (s : String) : String := String.mk (s.data.map Char.toLower)

/-- Python's default whitespace set for `str.strip()`. -/
def isSpaceChar (c : Char) : Bool :=
  c == ' ' || c == '\t' || c == '\n' || c == '\r' || c == '\x0b' || c == '\x0c'

/-- `str.strip()`: remove leading and trailing whitespace. -/
def strTrim (s : String) : String :=
  String.mk (((s.data.dropWhile isSpaceChar).reverse.dropWhile isSpaceChar).reverse)

/-! ## Author-name extraction (embedding of the `re.search` calls)

The source uses four regular expressions, all instances of the shape
`(?:PRE )?opinion by (?:chief )?justice (\w+)` (with the leading group
mandatory in the two description-branch patterns).  `re.search` scans
left to right and at each position tries the greedy alternative first;
`\w+` is modelled as a maximal non-empty run of ASCII alphanumeric or
underscore characters. -/

def isWordChar (c : Char) : Bool := c.isAlphanum || c == '_'

def matchJusticeName (cs : List Char) : Option (List Char) :=
  if "justice ".data.isPrefixOf cs then
    let w := (cs.drop 8).takeWhile isWordChar
    if w.isEmpty then none else some w
  else none

def matchChiefJusticeName (cs : List Char) : Option (List Char) :=
  match (if "chief ".data.isPrefixOf cs then matchJusticeName (cs.drop 6) else none) with
  | some w => some w
  | none => matchJusticeName cs

def matchOpinionBy (cs : List Char) : Option (List Char) :=
  if "opinion by ".data.isPrefixOf cs then matchChiefJusticeName (cs.drop 11) else none

def matchPatternAt (pre : List Char) (optPre : Bool) (cs : List Char) : Option (List Char) :=
  match (if pre.isPrefixOf cs then matchOpinionBy (cs.drop pre.length) else none) with
  | some w => some w
  | none => if optPre then matchOpinionBy cs else none

def searchAux (pre : List Char) (optPre : Bool) : List Char → Option String
  | [] => none
  | c :: rest =>
    match matchPatternAt pre optPre (c :: rest) with
    | some w => some (String.mk w)
    | none => searchAux pre optPre rest

/-- `justiceSearch pre optPre text` models
`re.search(r'(?:PRE )?opinion by (?:chief )?justice (\w+)', text)`
returning the captured group (the pattern's leading word is mandatory
when `optPre = false`). -/
def justiceSearch (pre : String) (optPre : Bool) (text : String) : Option String :=
  searchAux pre.data optPre text.data

/-! ## Fragment classification (`pdrbot.py:get_abbreviation_and_justice`)

The scraper-side variant (`scraper.py:get_abbreviation_and_justice`)
is this function with `disposition = ""`. -/

def get_abbreviation_and_justice (description disposition : String) : String × Option String :=
  let dl := strToLower description
  let pl := strToLower disposition
  if strContains pl "concurring" then ("con", justiceSearch "concurring " true dl)
  else if strContains pl "dissenting" then ("dis", justiceSearch "dissenting " true dl)
  else if strContains dl "memorandum" then ("mem", none)
  else if strContains dl "dissenting" then ("dis", justiceSearch "dissenting " false dl)
  else if strContains dl "concurring" then ("con", justiceSearch "concurring " false dl)
  else if strContains dl "opinion" then ("op", none)
  else ("", none)

/-! ## Opinion ordering (`pdrbot.py:get_opinion_sort_order` and the
`sorted(...)` call in `process_case_opinions`) -/

def get_opinion_sort_order (t : String) : Nat :=
  if t = "mem" then 1
  else if t = "op" then 1
  else if t = "con" then 2
  else if t = "dis" then 3
  else if t = "opinion" then 1
  else 4

/-- One entry of the per-case `opinions` list built in
`pdrbot.py:scrape_court_date` (lines 1379-1387). -/
structure Opinion where
  url : String
  description : String
  abbr : String
  justice_name : Option String
  temp_filename : String
  sort_order : Nat
deriving DecidableEq

/-- Lexicographic order on code points, i.e. Python string comparison. -/
def charListLE : List Char → List Char → Bool
  | [], _ => true
  | _ :: _, [] => false
  | a :: as, b :: bs => if a = b then charListLE as bs else decide (a < b)

def strLE (a b : String) : Bool := charListLE a.data b.data

/-- The Python sort key `(x['sort_order'], x['justice_name'] or '')`,
compared lexicographically. -/
def opinionLE (a b : Opinion) : Bool :=
  decide (a.sort_order < b.sort_order) ||
    (a.sort_order == b.sort_order &&
      strLE (a.justice_name.getD "") (b.justice_name.getD ""))

/-- Stable insertion of `x` after all already-placed elements whose key
is `≤` its own; folding this over the input models Python's stable
`sorted`. -/
def insertSorted (x : Opinion) : List Opinion → List Opinion
  | [] => [x]
  | y :: ys => if opinionLE y x then y :: insertSorted x ys else x :: y :: ys

/-- `sorted(opinions, key=lambda x: (x['sort_order'], x['justice_name'] or ''))`:
Python's `sorted` is a stable sort, whose output is uniquely determined
by the key order and the input order, so a stable insertion sort is an
exact model. -/
def sortOpinions (l : List Opinion) : List Opinion :=
  l.foldl (fun acc x => insertSorted x acc) []

/-- How `scrape_court_date` builds one opinion record from a parsed
`(url, description)` fragment together with the row's disposition
(lines 1364-1387 of `pdrbot.py`); `i` is the fragment's index and
`nLinks` the number of fragments of the case row. -/
def mkOpinion (case_number url description disposition : String) (i nLinks : Nat) : Opinion :=
  let r := get_abbreviation_and_justice description disposition
  let ab := r.1
  let justice := r.2
  let temp :=
    if ab ≠ "" then
      if justice.isSome ∧ (ab = "con" ∨ ab = "dis") then
        case_number ++ "_" ++ ab ++ "_" ++ justice.getD "" ++ "_temp.pdf"
      else
        case_number ++ "_" ++ ab ++ "_temp.pdf"
    else
      (if nLinks > 1 then case_number ++ "_" ++ toString (i + 1) else case_number) ++ "_temp.pdf"
  ⟨url, description, (if ab = "" then "opinion" else ab), justice, temp,
    get_opinion_sort_order (if ab = "" then "opinion" else ab)⟩

/-! ## Fetch engine (`pdrbot.py:get_with_retry`, `pdrbot.py:download_pdf`)

The network is an oracle `Nat → …` giving the outcome of each attempt.
The loops `for attempt in range(max_retries)` are embedded as structural
recursion over `List.range maxRetries`.  `time.sleep` calls are recorded
in a `sleeps` list; attempts (calls to `session.get`) are counted. -/

/-- `int(os.getenv('MAX_RETRIES', '3'))` with the variable unset. -/
def MAX_RETRIES_DEFAULT : Nat := 3

structure RetryResult where
  success : Option Nat
  attempts : Nat
  sleeps : List Nat
deriving DecidableEq

/-- Loop body of `get_with_retry`: `net a = true` means attempt `a`
returns a 2xx response, `false` means a transport-level failure
(connection error, timeout, or a non-2xx status raised by
`raise_for_status`). -/
def retryLoop (net : Nat → Bool) (maxRetries : Nat) : List Nat → RetryResult
  | [] => ⟨none, 0, []⟩
  | attempt :: rest =>
    if net attempt then ⟨some attempt, 1, []⟩
    else if attempt < maxRetries - 1 then
      let r := retryLoop net maxRetries rest
      ⟨r.success, r.attempts + 1, 2 ^ attempt :: r.sleeps⟩
    else ⟨none, 1, []⟩

def get_with_retry (net : Nat → Bool) (maxRetries : Nat) : RetryResult :=
  retryLoop net maxRetries (List.range maxRetries)

/-- Outcome of one `session.get` inside `download_pdf`: either an
exception (transport failure / non-2xx status) or a payload with its
declared content type and body bytes (bytes modelled as a string). -/
inductive AttemptResp where
  | netError
  | payload (contentType : String) (content : String)

/-- Filesystem: association list from paths to file contents; a write
shadows earlier entries, `List.lookup` reads the newest. -/
def FS := List (String × String)

def fsWrite (fs : FS) (p c : String) : FS := (p, c) :: fs

def fsRemove (fs : FS) (p : String) : FS :=
  fs.filter (fun e => !(e.1 == p))

def fsLookup (fs : FS) (p : String) : Option String := fs.lookup p

structure DownloadResult where
  ok : Bool
  fs : FS
  calls : Nat
  sleeps : List Nat

/-- Loop body of `pdrbot.py:download_pdf` (lines 1038-1081): on a
payload with the right content type the body is written directly to
`filepath`, then validated (non-empty, leading `%PDF` magic bytes); a
validation failure raises and is retried with the same backoff as a
transport failure, leaving the just-written file in place. -/
def downloadAttempts (att : Nat → AttemptResp) (maxRetries : Nat) (filepath : String) :
    List Nat → FS → DownloadResult
  | [], fs => ⟨false, fs, 0, []⟩
  | attempt :: rest, fs =>
    match att attempt with
    | .netError =>
      if attempt < maxRetries - 1 then
        let r := downloadAttempts att maxRetries filepath rest fs
        ⟨r.ok, r.fs, r.calls + 1, 2 ^ attempt :: r.sleeps⟩
      else ⟨false, fs, 1, []⟩
    | .payload ct content =>
      if strToLower ct ≠ "application/pdf" then
        -- not a PDF: give up on the final attempt, else back off and retry
        if attempt = maxRetries - 1 then ⟨false, fs, 1, []⟩
        else
          let r := downloadAttempts att maxRetries filepath rest fs
          ⟨r.ok, r.fs, r.calls + 1, 2 ^ attempt :: r.sleeps⟩
      else
        let fs1 := fsWrite fs filepath content
        if content.length = 0 then
          -- "File was not written or is empty" is raised and retried
          if attempt < maxRetries - 1 then
            let r := downloadAttempts att maxRetries filepath rest fs1
            ⟨r.ok, r.fs, r.calls + 1, 2 ^ attempt :: r.sleeps⟩
          else ⟨false, fs1, 1, []⟩
        else if "%PDF".data.isPrefixOf content.data = false then
          -- "Downloaded file is not a valid PDF" is raised and retried
          if attempt < maxRetries - 1 then
            let r := downloadAttempts att maxRetries filepath rest fs1
            ⟨r.ok, r.fs, r.calls + 1, 2 ^ attempt :: r.sleeps⟩
          else ⟨false, fs1, 1, []⟩
        else ⟨true, fs1, 1, []⟩

def download_pdf (att : Nat → AttemptResp) (maxRetries : Nat) (filepath : String) (fs : FS) :
    DownloadResult :=
  downloadAttempts att maxRetries filepath (List.range maxRetries) fs

/-! ## Document assembler (`pdrbot.py:process_case_opinions`,
`pdrbot.py:concatenate_pdfs`)

`net : String → Nat → AttemptResp` is the per-URL network oracle.
PDF page concatenation is modelled as string concatenation of the
files' contents. -/

def joinPath (a b : String) : String := a ++ "/" ++ b

/-- `concatenate_pdfs` reads every input path that exists and writes
their pages, in order, to `out`. -/
def concatenate_pdfs (fs : FS) (paths : List String) (out : String) : FS :=
  fsWrite fs out (String.join (paths.filterMap (fun p => fsLookup fs p)))

/-- `os.rename src dst` (only reached when `src` exists). -/
def osRename (fs : FS) (src dst : String) : FS :=
  match fsLookup fs src with
  | some c => fsWrite (fsRemove fs src) dst c
  | none => fs

/-- The download loop of `process_case_opinions` (lines 1241-1251):
collects successful temp file paths in order, failed opinions, and the
filesystem after all downloads. -/
def downloadLoop (net : String → Nat → AttemptResp) (maxRetries : Nat) (folder : String) :
    List Opinion → FS → List String × List Opinion × FS
  | [], fs => ([], [], fs)
  | o :: rest, fs =>
    let p := joinPath folder o.temp_filename
    let res := download_pdf (net o.url) maxRetries p fs
    let next := downloadLoop net maxRetries folder rest res.fs
    if res.ok then (p :: next.1, next.2.1, next.2.2)
    else (next.1, o :: next.2.1, next.2.2)

structure AssembleResult where
  fs : FS
  ret : Nat
  downloadCalls : Nat
  dbSaved : Bool
  warnedFailures : Bool
  warnedNone : Bool

/-- `pdrbot.py:process_case_opinions` (lines 1222-1309).  The database
insert is modelled by the `dbSaved` flag, the two `logger.warning`
calls by `warnedFailures` (some fragments failed all retries) and
`warnedNone` (no fragment downloaded).  `downloadCalls` counts the
`download_pdf` invocations, i.e. the units of network I/O. -/
def process_case_opinions (net : String → Nat → AttemptResp) (maxRetries : Nat)
    (case_number : String) (opinions : List Opinion) (folder : String) (fs : FS) :
    AssembleResult :=
  let finalPath := joinPath folder (case_number ++ ".pdf")
  if (fsLookup fs finalPath).isSome then
    ⟨fs, 0, 0, false, false, false⟩
  else
    let sortedOps := sortOpinions opinions
    let dl := downloadLoop net maxRetries folder sortedOps fs
    let temps := dl.1
    let failed := dl.2.1
    let fs1 := dl.2.2
    let warned := !failed.isEmpty
    match temps with
    | [] => ⟨fs1, 0, sortedOps.length, false, warned, true⟩
    | [t] => ⟨osRename fs1 t finalPath, 1, sortedOps.length, true, warned, false⟩
    | t1 :: t2 :: ts =>
      let fs2 := concatenate_pdfs fs1 (t1 :: t2 :: ts) finalPath
      let fs3 := (t1 :: t2 :: ts).foldl (fun acc p => fsRemove acc p) fs2
      ⟨fs3, 1, sortedOps.length, true, warned, false⟩

/-- Does `download_pdf` succeed for this opinion?  The result of a
download depends only on the opinion's own attempt sequence (proved
below), so it is stated against the empty filesystem. -/
def fetchOk (net : String → Nat → AttemptResp) (maxRetries : Nat) (folder : String)
    (o : Opinion) : Bool :=
  (download_pdf (net o.url) maxRetries (joinPath folder o.temp_filename) []).ok

/-- The validated content a successful download leaves at its path. -/
def fetchedContent (net : String → Nat → AttemptResp) (maxRetries : Nat) (folder : String)
    (o : Opinion) : String :=
  ((download_pdf (net o.url) maxRetries (joinPath folder o.temp_filename) []).fs.lookup
    (joinPath folder o.temp_filename)).getD ""

/-! ## Work-unit ledger and harvest coordinator
(`scraper.py:is_combination_completed`, `mark_combination_completed`,
`log_scrape_result`, `scrape_court_date`)

The persistent status dictionary and the CSV scrape log are embedded
as explicit state.  The CSV status column is written from the three
literals `"no_cases"`, `"completed"` and `f"error: {e}"`, captured by
`ScrapeStatus`. -/

structure Date where
  year : Nat
  month : Nat
  day : Nat
deriving DecidableEq

/-- `%02d` formatting for the values the program prints. -/
def pad2 (n : Nat) : String := if n < 10 then "0" ++ toString n else toString n

/-- `%Y` (4-digit zero-padded year). -/
def pad4 (n : Nat) : String :=
  if n < 10 then "000" ++ toString n
  else if n < 100 then "00" ++ toString n
  else if n < 1000 then "0" ++ toString n
  else toString n

/-- `date.strftime('%Y-%m-%d')`. -/
def dateStr (d : Date) : String := pad4 d.year ++ "-" ++ pad2 d.month ++ "-" ++ pad2 d.day

/-- The derived work-unit key `f"{date:%Y-%m-%d}_COA{court:02d}"`. -/
def comboKey (court : Nat) (d : Date) : String := dateStr d ++ "_COA" ++ pad2 court

inductive ScrapeStatus where
  | no_cases
  | completed
  | error (msg : String)
deriving DecidableEq

/-- The string written to the CSV status column. -/
def statusText : ScrapeStatus → String
  | .no_cases => "no_cases"
  | .completed => "completed"
  | .error m => "error: " ++ m

/-- A non-error completion record (`no_cases` or `completed`). -/
def nonError : ScrapeStatus → Bool
  | .error _ => false
  | _ => true

structure LogEntry where
  court : Nat
  date : Date
  found : Nat
  files : Nat
  status : ScrapeStatus
deriving DecidableEq

structure ScraperState where
  completed_combinations : List String
  last_completed_date : Option Date
  last_completed_court : Option Nat
  total_files_downloaded : Nat
  total_requests : Nat
  log : List LogEntry
deriving DecidableEq

def initialScraperState : ScraperState := ⟨[], none, none, 0, 0, []⟩

def is_combination_completed (st : ScraperState) (court : Nat) (d : Date) : Bool :=
  st.completed_combinations.contains (comboKey court d)

def mark_combination_completed (st : ScraperState) (court : Nat) (d : Date) : ScraperState :=
  if st.completed_combinations.contains (comboKey court d) then st
  else
    { st with
      completed_combinations := st.completed_combinations ++ [comboKey court d]
      last_completed_date := some d
      last_completed_court := some court }

def log_scrape_result (st : ScraperState) (court : Nat) (d : Date) (found files : Nat)
    (status : ScrapeStatus) : ScraperState :=
  { st with log := st.log ++ [⟨court, d, found, files, status⟩] }

/-- `scraper.py:scrape_court_date` (lines 298-368), with the fetch and
parse of the docket page abstracted into `fetch`: `.error e` is any
exception escaping the `try` block, `.ok counts` is the parsed case
list where each entry is the number of files the inner download loop
obtains for that case.  Returns the new state and the download count. -/
def scrape_court_date (st : ScraperState) (court : Nat) (d : Date)
    (fetch : Except String (List Nat)) : ScraperState × Nat :=
  if is_combination_completed st court d then (st, 0)
  else
    match fetch with
    | .error e => (log_scrape_result st court d 0 0 (.error e), 0)
    | .ok caseCounts =>
      if caseCounts.isEmpty then
        (mark_combination_completed (log_scrape_result st court d 0 0 .no_cases) court d, 0)
      else
        let downloaded := caseCounts.foldl (· + ·) 0
        let st1 := { st with total_files_downloaded := st.total_files_downloaded + downloaded }
        let st2 := log_scrape_result st1 court d caseCounts.length downloaded .completed
        let st3 := mark_combination_completed st2 court d
        ({ st3 with total_requests := st3.total_requests + 1 }, downloaded)

/-- A sequence of coordinator passes over work units. -/
def runPasses (st : ScraperState) : List (Nat × Date × Except String (List Nat)) → ScraperState
  | [] => st
  | (c, d, f) :: rest => runPasses (scrape_court_date st c d f).1 rest

/-! ## Run state machine (`pdrbot.py:run_daily_automation`,
`pdrbot.py:update_run_state`)

The run is embedded as the sequence of observable events it performs:
`persist s` is an `update_run_state(run_id, status=s)` database write,
`work s` is the invocation of the named phase function.  Branching
inputs (configuration flags, whether each phase raises, the phase
outcomes) are explicit. -/

inductive RunEvent where
  | persist (status : String)
  | work (step : String)
deriving DecidableEq

structure AutomationInput where
  analysisEnabled : Bool
  unanalyzedPositive : Bool
  reportProduced : Bool
  emailEnabled : Bool
  emailOk : Bool
  scrapeRaises : Bool
  analysisRaises : Bool
  reportRaises : Bool
  emailRaises : Bool

/-- `run_daily_automation` (lines 1587-1644): the event trace and the
returned boolean.  An exception in a phase jumps to the handler, which
persists status `failed`. -/
def run_daily_automation (inp : AutomationInput) : List RunEvent × Bool :=
  let ev0 : List RunEvent := [.persist "scraping", .work "resume_daily_scrape"]
  if inp.scrapeRaises then (ev0 ++ [.persist "failed"], false) else
  let ev1 := ev0 ++
    (if inp.analysisEnabled ∧ inp.unanalyzedPositive then
      [.persist "analyzing", .work "run_analysis_batch"] else [])
  if inp.analysisEnabled ∧ inp.unanalyzedPositive ∧ inp.analysisRaises then
    (ev1 ++ [.persist "failed"], false) else
  let ev2 := ev1 ++ [.persist "reporting", .work "generate_daily_report"]
  if inp.reportRaises then (ev2 ++ [.persist "failed"], false) else
  if !inp.reportProduced then (ev2 ++ [.persist "no_cases"], false) else
  let ev3 := ev2 ++ [.work "check_subscription_emails"]
  if inp.emailEnabled then
    let ev4 := ev3 ++ [.persist "emailing", .work "send_email_report"]
    if inp.emailRaises then (ev4 ++ [.persist "failed"], false)
    else if inp.emailOk then (ev4 ++ [.persist "completed"], true)
    else (ev4 ++ [.persist "email_failed"], false)
  else (ev3 ++ [.persist "completed"], true)

/-- `persistedBeforeWork evs seen phase wk = true` iff in `evs` every
occurrence of the work step `wk` is preceded by a persisted `phase`
status (`seen` carries whether one was already persisted). -/
def persistedBeforeWork (phase wk : String) : List RunEvent → Bool → Bool
  | [], _ => true
  | .persist s :: rest, seen => persistedBeforeWork phase wk rest (seen || s == phase)
  | .work w :: rest, seen => (w != wk || seen) && persistedBeforeWork phase wk rest seen

/-! ## Previous business day (`pdrbot.py:get_previous_business_day`)

Dates are days since 1970-01-01, which was a Thursday, so Python's
`date.weekday()` (Monday = 0) is `(d + 3) % 7`. -/

def pyWeekday (d : Nat) : Nat := (d + 3) % 7

/-- The `while yesterday.weekday() >= 5: yesterday -= timedelta(days=1)`
loop. -/
def skipBackWeekend (y : Nat) : Nat :=
  if h : 5 ≤ pyWeekday y then skipBackWeekend (y - 1) else y
termination_by y
decreasing_by
  simp only [pyWeekday] at h
  omega

def get_previous_business_day (today : Nat) : Nat := skipBackWeekend (today - 1)

/-! ## Subscription membership (`pdrbot.py:add_member`,
`pdrbot.py:remove_member`)

The members file is embedded as the list it stores; `saveOk` is
whether `save_members` succeeds (on failure the file is unchanged).
Python's `list.remove` deletes the first occurrence, i.e.
`List.erase`. -/

def normalizeEmail (s : String) : String := strTrim (strToLower s)

def add_member (members : List String) (email : String) (saveOk : Bool) :
    List String × Bool :=
  let e := normalizeEmail email
  if e ∈ members then (members, true)
  else if saveOk then (members ++ [e], true)
  else (members, false)

def remove_member (members : List String) (email : String) (saveOk : Bool) :
    List String × Bool :=
  let e := normalizeEmail email
  if e ∈ members then
    if saveOk then (members.erase e, true) else (members, false)
  else (members, true)

/-! ## Concrete instances used in counterexamples and witnesses -/

/-- A non-error completion record for key `k` exists in the scrape log. -/
def hasNonErrorEntry (st : ScraperState) (k : String) : Prop :=
  ∃ e ∈ st.log, comboKey e.court e.date = k ∧ nonError e.status = true

/-- A server that always answers 200 with content type `application/pdf`
but an HTML error page as body. -/
def badAttempt : Nat → AttemptResp := fun _ => .payload "application/pdf" "<html>error page</html>"

/-- A server that always answers with a valid PDF payload. -/
def goodAttempt : Nat → AttemptResp := fun _ => .payload "application/pdf" "%PDF-1.4 body"

/-- The three fragments of the spec's ordering scenario, built exactly
as `scrape_court_date` builds them. -/
def memFragment : Opinion := mkOpinion "01-23-00751-CR" "u1" "Memorandum Opinion" "" 0 3

def conFragment : Opinion := mkOpinion "01-23-00751-CR" "u2" "Concurring Opinion by Justice Jones" "" 1 3

def disFragment : Opinion := mkOpinion "01-23-00751-CR" "u3" "Dissenting Opinion by Justice Smith" "" 2 3

/-- A network where the memorandum's URL serves a valid PDF and every
other URL fails every attempt. -/
def partialNet : String → Nat → AttemptResp := fun u _ =>
  if u = "u1" then .payload "application/pdf" "%PDF-1.4 mem" else .netError

/-- A network where all three fragment URLs serve valid PDFs. -/
def fullNet : String → Nat → AttemptResp := fun u _ =>
  if u = "u1" then .payload "application/pdf" "%PDF-1.4 mem"
  else if u = "u2" then .payload "application/pdf" "%PDF-1.4 con"
  else if u = "u3" then .payload "application/pdf" "%PDF-1.4 dis"
  else .netError

/-! # Theorems -/

/-- Claim C9: `get_previous_business_day` always returns a date strictly
earlier than the current date whose weekday is Monday through Friday:
it returns yesterday, except when yesterday falls on Saturday or Sunday,
in which case it returns the most recent preceding Friday. -/
theorem c9_previous_business_day (today : Nat) (h3 : 3 ≤ today) :
    get_previous_business_day today < today ∧
    pyWeekday (get_previous_business_day today) < 5 ∧
    (pyWeekday (today - 1) < 5 → get_previous_business_day today = today - 1) ∧
    (5 ≤ pyWeekday (today - 1) →
      pyWeekday (get_previous_business_day today) = 4 ∧
      ∀ d, get_previous_business_day today < d → d < today → 5 ≤ pyWeekday d) := by
  have e1 : ∀ z, pyWeekday z < 5 → skipBackWeekend z = z := by
    intro z hz
    rw [skipBackWeekend, dif_neg (by omega)]
  have e2 : ∀ z, 5 ≤ pyWeekday z → skipBackWeekend z = skipBackWeekend (z - 1) := by
    intro z hz
    rw [skipBackWeekend, dif_pos hz]
  unfold get_previous_business_day
  by_cases hw : pyWeekday (today - 1) < 5
  · rw [e1 _ hw]
    exact ⟨by omega, hw, fun _ => rfl, fun hc => absurd hc (by omega)⟩
  · push_neg at hw
    have h7 : pyWeekday (today - 1) < 7 := Nat.mod_lt _ (by norm_num)
    rcases (by omega : pyWeekday (today - 1) = 5 ∨ pyWeekday (today - 1) = 6) with h5 | h6
    · have w1 : pyWeekday (today - 1 - 1) = 4 := by
        simp only [pyWeekday] at h5 ⊢
        omega
      rw [e2 _ hw, e1 _ (by omega)]
      refine ⟨by omega, by omega, fun hc => absurd hc (by omega), fun _ => ⟨w1, ?_⟩⟩
      intro d hd1 hd2
      have hd : d = today - 1 := by omega
      subst hd
      omega
    · have w1 : pyWeekday (today - 1 - 1) = 5 := by
        simp only [pyWeekday] at h6 ⊢
        omega
      have w2 : pyWeekday (today - 1 - 1 - 1) = 4 := by
        simp only [pyWeekday] at h6 ⊢
        omega
      rw [e2 _ hw, e2 _ (by omega), e1 _ (by omega)]
      refine ⟨by omega, by omega, fun hc => absurd hc (by omega), fun _ => ⟨w2, ?_⟩⟩
      intro d hd1 hd2
      have hd : d = today - 1 ∨ d = today - 1 - 1 := by omega
      simp only [pyWeekday] at h6 w1 ⊢
      omega

/-- Witness for C9 at `today = 10` (a Sunday): the result is an earlier
weekday. -/
theorem c9_witness :
    get_previous_business_day 10 < 10 ∧ pyWeekday (get_previous_business_day 10) < 5 := by
  have h := c9_previous_business_day 10 (by decide)
  exact ⟨h.1, h.2.1⟩

/-- Claim C10: `add_member` and `remove_member` normalize the address
(lowercase, strip) before use; they preserve the no-duplicates
invariant of the members list; `add_member` appends only when the
normalized address is absent; `remove_member` removes only when
present; both return True when the list already satisfies the
requested state; and both are idempotent. -/
theorem c10_membership (members : List String) (email : String) (saveOk : Bool) :
    (members.Nodup →
      (add_member members email saveOk).1.Nodup ∧ (remove_member members email saveOk).1.Nodup) ∧
    (normalizeEmail email ∈ members → add_member members email saveOk = (members, true)) ∧
    (normalizeEmail email ∉ members →
      add_member members email true = (members ++ [normalizeEmail email], true)) ∧
    (normalizeEmail email ∉ members → remove_member members email saveOk = (members, true)) ∧
    (normalizeEmail email ∈ members →
      remove_member members email true = (members.erase (normalizeEmail email), true)) ∧
    (add_member (add_member members email true).1 email true =
      ((add_member members email true).1, true)) ∧
    (members.Nodup →
      remove_member (remove_member members email true).1 email true =
        ((remove_member members email true).1, true)) := by
  by_cases hm : normalizeEmail email ∈ members
  · refine ⟨fun hn => ⟨?_, ?_⟩, fun _ => by simp [add_member, hm],
      fun hc => absurd hm hc, fun hc => absurd hm hc,
      fun _ => by simp [remove_member, hm], by simp [add_member, hm],
      fun hn => by simp [remove_member, hm, hn.not_mem_erase]⟩
    · simpa [add_member, hm] using hn
    · cases saveOk
      · simpa [remove_member, hm] using hn
      · simpa [remove_member, hm] using hn.erase _
  · refine ⟨fun hn => ⟨?_, ?_⟩, fun hc => absurd hc hm, fun _ => by simp [add_member, hm],
      fun _ => by simp [remove_member, hm], fun hc => absurd hc hm,
      by simp [add_member, hm], fun hn => by simp [remove_member, hm]⟩
    · cases saveOk
      · simpa [add_member, hm] using hn
      · simp [add_member, hm, List.nodup_append, hn]
    · simpa [remove_member, hm] using hn

/-- Witness for C10: adding an address already present (after
normalization) leaves the list unchanged and returns True. -/
theorem c10_witness :
    add_member ["a@b.com"] " A@B.com " true = (["a@b.com"], true) ∧
    remove_member ["a@b.com"] "A@B.COM" true = ([], true) := by
  have h1 := (c10_membership ["a@b.com"] " A@B.com " true).2.1 (by decide)
  have h2 := (c10_membership ["a@b.com"] "A@B.COM" true).2.2.2.2.1 (by decide)
  exact ⟨h1, h2.trans (by decide)⟩

/-- Claim C8: in every execution of `run_daily_automation`, each of the
phases scraping, analyzing, reporting and emailing has its status
persisted to the run record strictly before the phase's work function
is invoked, so after a crash the last-persisted phase means "at most
partially done", never "succeeded". -/
theorem c8_persist_before_work (a b c d e f g h i : Bool) :
    persistedBeforeWork "scraping" "resume_daily_scrape"
      (run_daily_automation ⟨a, b, c, d, e, f, g, h, i⟩).1 false = true ∧
    persistedBeforeWork "analyzing" "run_analysis_batch"
      (run_daily_automation ⟨a, b, c, d, e, f, g, h, i⟩).1 false = true ∧
    persistedBeforeWork "reporting" "generate_daily_report"
      (run_daily_automation ⟨a, b, c, d, e, f, g, h, i⟩).1 false = true ∧
    persistedBeforeWork "emailing" "send_email_report"
      (run_daily_automation ⟨a, b, c, d, e, f, g, h, i⟩).1 false = true := by
  revert a b c d e f g h i
  decide

/-- Sleeps of the form `2 ^ attempt` stay sorted when one more
(smaller) attempt index is consed in front. -/
theorem pow_sleeps_cons {m a : Nat} {rest sleeps : List Nat}
    (hlt : a < m - 1) (hhead : ∀ b ∈ rest, a ≤ b)
    (hchain : List.Chain' (· ≤ ·) sleeps)
    (hmem : ∀ x ∈ sleeps, ∃ b ∈ rest, b < m - 1 ∧ x = 2 ^ b) :
    List.Chain' (· ≤ ·) (2 ^ a :: sleeps) ∧
    (∀ x ∈ 2 ^ a :: sleeps, ∃ b ∈ a :: rest, b < m - 1 ∧ x = 2 ^ b) := by
  constructor
  · rw [List.chain'_cons']
    refine ⟨?_, hchain⟩
    intro y hy
    obtain ⟨b, hb, _, rfl⟩ := hmem y (List.mem_of_mem_head? hy)
    exact Nat.pow_le_pow_right (by norm_num) (hhead b hb)
  · intro x hx
    rcases List.mem_cons.mp hx with rfl | hx'
    · exact ⟨a, List.mem_cons_self _ _, hlt, rfl⟩
    · obtain ⟨b, hb, hbl, rfl⟩ := hmem x hx'
      exact ⟨b, List.mem_cons_of_mem _ hb, hbl, rfl⟩

/-- Bounds for the `get_with_retry` loop: attempt count, sorted
backoff sleeps, and the shape of each sleep. -/
theorem retryLoop_bounds (net : Nat → Bool) (m : Nat) :
    ∀ l : List Nat, l.Pairwise (· ≤ ·) →
      (retryLoop net m l).attempts ≤ l.length ∧
      List.Chain' (· ≤ ·) (retryLoop net m l).sleeps ∧
      (∀ x ∈ (retryLoop net m l).sleeps, ∃ a ∈ l, a < m - 1 ∧ x = 2 ^ a) := by
  intro l
  induction l with
  | nil => intro _; refine ⟨by simp [retryLoop], by simp [retryLoop], by simp [retryLoop]⟩
  | cons a rest ih =>
    intro hp
    have hrest := ih (List.Pairwise.of_cons hp)
    have hhead : ∀ b ∈ rest, a ≤ b := fun b hb => List.rel_of_pairwise_cons hp hb
    simp only [retryLoop]
    by_cases hn : net a
    · simp [hn]
    · by_cases hlt : a < m - 1
      · have hp2 := pow_sleeps_cons hlt hhead hrest.2.1 hrest.2.2
        simp only [hn, Bool.false_eq_true, if_false, if_pos hlt]
        refine ⟨by simpa using Nat.succ_le_succ hrest.1, hp2.1, hp2.2⟩
      · simp [hn, hlt]

/-- Bounds for the `download_pdf` loop: call count, sorted backoff
sleeps, and the shape of each sleep. -/
theorem downloadAttempts_bounds (att : Nat → AttemptResp) (m : Nat) (p : String) :
    ∀ (l : List Nat) (fs : FS), l.Pairwise (· ≤ ·) → (∀ b ∈ l, b < m) →
      (downloadAttempts att m p l fs).calls ≤ l.length ∧
      List.Chain' (· ≤ ·) (downloadAttempts att m p l fs).sleeps ∧
      (∀ x ∈ (downloadAttempts att m p l fs).sleeps, ∃ a ∈ l, a < m - 1 ∧ x = 2 ^ a) := by
  intro l
  induction l with
  | nil => intro fs _ _; refine ⟨by simp [downloadAttempts], by simp [downloadAttempts],
      by simp [downloadAttempts]⟩
  | cons a rest ih =>
    intro fs hp hb
    have hhead : ∀ b ∈ rest, a ≤ b := fun b hb => List.rel_of_pairwise_cons hp hb
    have ha : a < m := hb a (List.mem_cons_self _ _)
    have hbrest : ∀ b ∈ rest, b < m := fun b hbm => hb b (List.mem_cons_of_mem _ hbm)
    simp only [downloadAttempts]
    cases hatt : att a with
    | netError =>
      by_cases hlt : a < m - 1
      · have hrest := ih fs (List.Pairwise.of_cons hp) hbrest
        have hp2 := pow_sleeps_cons hlt hhead hrest.2.1 hrest.2.2
        simp only [if_pos hlt]
        exact ⟨by simpa using Nat.succ_le_succ hrest.1, hp2.1, hp2.2⟩
      · rw [if_neg hlt]
        exact ⟨by simp, by simp, by simp⟩
    | payload ct content =>
      by_cases hct : strToLower ct ≠ "application/pdf"
      · simp only [if_pos hct]
        by_cases heq : a = m - 1
        · rw [if_pos heq]
          exact ⟨by simp, by simp, by simp⟩
        · have hrest := ih fs (List.Pairwise.of_cons hp) hbrest
          have hp2 := pow_sleeps_cons (by omega) hhead hrest.2.1 hrest.2.2
          simp only [if_neg heq]
          exact ⟨by simpa using Nat.succ_le_succ hrest.1, hp2.1, hp2.2⟩
      · simp only [if_neg hct]
        by_cases hz : content.length = 0
        · simp only [if_pos hz]
          by_cases hlt : a < m - 1
          · have hrest := ih (fsWrite fs p content) (List.Pairwise.of_cons hp) hbrest
            have hp2 := pow_sleeps_cons hlt hhead hrest.2.1 hrest.2.2
            simp only [if_pos hlt]
            exact ⟨by simpa using Nat.succ_le_succ hrest.1, hp2.1, hp2.2⟩
          · rw [if_neg hlt]
            exact ⟨by simp, by simp, by simp⟩
        · simp only [if_neg hz]
          by_cases hmg : "%PDF".data.isPrefixOf content.data = false
          · simp only [if_pos hmg]
            by_cases hlt : a < m - 1
            · have hrest := ih (fsWrite fs p content) (List.Pairwise.of_cons hp) hbrest
              have hp2 := pow_sleeps_cons hlt hhead hrest.2.1 hrest.2.2
              simp only [if_pos hlt]
              exact ⟨by simpa using Nat.succ_le_succ hrest.1, hp2.1, hp2.2⟩
            · rw [if_neg hlt]
              exact ⟨by simp, by simp, by simp⟩
          · simp [hmg]

/-- Claim C2: a fetch makes at most N attempts (N defaulting to 3),
the backoff sleeps are powers `2 ^ attempt` for non-final attempts and
hence non-decreasing, and a fetch that fails twice then succeeds on the
third attempt returns success.  Both `get_with_retry` and
`download_pdf` are covered. -/
theorem c2_retry_backoff (net : Nat → Bool) (att : Nat → AttemptResp) (p : String) (fs : FS) :
    (get_with_retry net MAX_RETRIES_DEFAULT).attempts ≤ MAX_RETRIES_DEFAULT ∧
    List.Chain' (· ≤ ·) (get_with_retry net MAX_RETRIES_DEFAULT).sleeps ∧
    (∀ x ∈ (get_with_retry net MAX_RETRIES_DEFAULT).sleeps,
      ∃ a, a < MAX_RETRIES_DEFAULT - 1 ∧ x = 2 ^ a) ∧
    (download_pdf att MAX_RETRIES_DEFAULT p fs).calls ≤ MAX_RETRIES_DEFAULT ∧
    List.Chain' (· ≤ ·) (download_pdf att MAX_RETRIES_DEFAULT p fs).sleeps ∧
    (net 0 = false → net 1 = false → net 2 = true →
      get_with_retry net MAX_RETRIES_DEFAULT = ⟨some 2, 3, [1, 2]⟩) := by
  have hpw : (List.range MAX_RETRIES_DEFAULT).Pairwise (· ≤ ·) :=
    List.Pairwise.imp Nat.le_of_lt (List.pairwise_lt_range _)
  have h1 := retryLoop_bounds net MAX_RETRIES_DEFAULT (List.range MAX_RETRIES_DEFAULT) hpw
  have h2 := downloadAttempts_bounds att MAX_RETRIES_DEFAULT p (List.range MAX_RETRIES_DEFAULT)
    fs hpw (fun b hbm => List.mem_range.mp hbm)
  refine ⟨by simpa using h1.1, h1.2.1, ?_, by simpa using h2.1, h2.2.1, ?_⟩
  · intro x hx
    obtain ⟨a, _, hal, rfl⟩ := h1.2.2 x hx
    exact ⟨a, hal, rfl⟩
  · intro h0 hh1 hh2
    show retryLoop net 3 (List.range 3) = _
    have hr : List.range 3 = [0, 1, 2] := rfl
    rw [hr]
    simp [retryLoop, h0, hh1, hh2]

/-- Witness for C2: a network failing on the first two attempts and
succeeding on the third. -/
theorem c2_witness :
    get_with_retry (fun i => i == 2) MAX_RETRIES_DEFAULT = ⟨some 2, 3, [1, 2]⟩ ∧
    (get_with_retry (fun i => i == 2) MAX_RETRIES_DEFAULT).attempts ≤ MAX_RETRIES_DEFAULT := by
  have h := c2_retry_backoff (fun i => i == 2) (fun _ => .netError) "p" []
  exact ⟨h.2.2.2.2.2 (by decide) (by decide) (by decide), h.1⟩

/-- Claim C4: fragments are ordered by the key
`(orderRank(type), authorName or "")` with ranks
primary = 1 < concurrence = 2 < dissent = 3 < unknown = 4, and any
permutation of the scenario set dissent/smith, primary,
concurrence/jones sorts to primary, concurrence/jones, dissent/smith. -/
theorem c4_opinion_ordering :
    (get_opinion_sort_order "mem" = 1 ∧ get_opinion_sort_order "op" = 1 ∧
     get_opinion_sort_order "opinion" = 1 ∧ get_opinion_sort_order "con" = 2 ∧
     get_opinion_sort_order "dis" = 3) ∧
    (∀ s : String, s ≠ "mem" → s ≠ "op" → s ≠ "con" → s ≠ "dis" → s ≠ "opinion" →
      get_opinion_sort_order s = 4) ∧
    (∀ l : List Opinion, l.Perm [memFragment, conFragment, disFragment] →
      sortOpinions l = [memFragment, conFragment, disFragment]) := by
  refine ⟨by decide, ?_, ?_⟩
  · intro s h1 h2 h3 h4 h5
    simp [get_opinion_sort_order, h1, h2, h3, h4, h5]
  · intro l hl
    have hlen : l.length = 3 := by simpa using hl.length_eq
    rcases l with _ | ⟨x, _ | ⟨y, _ | ⟨z, _ | ⟨w, tl⟩⟩⟩⟩ <;> simp at hlen
    have hx : x ∈ [memFragment, conFragment, disFragment] := hl.subset (by simp)
    simp only [List.mem_cons, List.not_mem_nil, or_false] at hx
    rcases hx with rfl | rfl | rfl
    · have hyz : [y, z].Perm [conFragment, disFragment] := hl.cons_inv
      have hy : y ∈ [conFragment, disFragment] := hyz.subset (by simp)
      simp only [List.mem_cons, List.not_mem_nil, or_false] at hy
      rcases hy with rfl | rfl
      · have hz := List.perm_singleton.mp hyz.cons_inv
        obtain rfl : z = _ := by injection hz
        decide
      · have hz := List.perm_singleton.mp
          ((hyz.trans (by decide : ([conFragment, disFragment] : List Opinion).Perm
            [disFragment, conFragment])).cons_inv)
        obtain rfl : z = _ := by injection hz
        decide
    · have hyz : [y, z].Perm [memFragment, disFragment] :=
        (hl.trans (by decide : ([memFragment, conFragment, disFragment] : List Opinion).Perm
          [conFragment, memFragment, disFragment])).cons_inv
      have hy : y ∈ [memFragment, disFragment] := hyz.subset (by simp)
      simp only [List.mem_cons, List.not_mem_nil, or_false] at hy
      rcases hy with rfl | rfl
      · have hz := List.perm_singleton.mp hyz.cons_inv
        obtain rfl : z = _ := by injection hz
        decide
      · have hz := List.perm_singleton.mp
          ((hyz.trans (by decide : ([memFragment, disFragment] : List Opinion).Perm
            [disFragment, memFragment])).cons_inv)
        obtain rfl : z = _ := by injection hz
        decide
    · have hyz : [y, z].Perm [memFragment, conFragment] :=
        (hl.trans (by decide : ([memFragment, conFragment, disFragment] : List Opinion).Perm
          [disFragment, memFragment, conFragment])).cons_inv
      have hy : y ∈ [memFragment, conFragment] := hyz.subset (by simp)
      simp only [List.mem_cons, List.not_mem_nil, or_false] at hy
      rcases hy with rfl | rfl
      · have hz := List.perm_singleton.mp hyz.cons_inv
        obtain rfl : z = _ := by injection hz
        decide
      · have hz := List.perm_singleton.mp
          ((hyz.trans (by decide : ([memFragment, conFragment] : List Opinion).Perm
            [conFragment, memFragment])).cons_inv)
        obtain rfl : z = _ := by injection hz
        decide

/-- Witness for C4: a shuffled input sorts to the required order, and
an unrecognized type tag ranks 4. -/
theorem c4_witness :
    sortOpinions [disFragment, memFragment, conFragment] =
      [memFragment, conFragment, disFragment] ∧
    get_opinion_sort_order "order" = 4 := by
  refine ⟨(c4_opinion_ordering).2.2 _ ?_, (c4_opinion_ordering).2.1 "order"
    (by decide) (by decide) (by decide) (by decide) (by decide)⟩
  decide

/-- Counterexample for C5 as stated: a fragment whose description
contains "memorandum" (primary under the claimed first-match-wins
description rules) is classified as a concurrence whenever the
disposition string contains "concurring" — the disposition takes
precedence rather than merely breaking ties. -/
theorem c5_counterexample :
    get_abbreviation_and_justice "Memorandum Opinion" "Concurring" = ("con", none) ∧
    (get_abbreviation_and_justice "Memorandum Opinion" "Concurring").1 ≠ "mem" := by
  decide

/-- Claim C5 (amended): the disposition is checked first — if it
contains "concurring" (resp. "dissenting", checked in that order) the
type is concurrence (resp. dissent) with the author extracted from the
description via the pattern "[concurring/dissenting ]opinion by [chief]
justice name"; otherwise the description rules apply case-insensitively
with first match winning, in priority order memorandum → primary,
dissenting → dissent, concurring → concurrence, opinion → primary,
no match → unknown. -/
theorem c5_classification_amended (description disposition : String) :
    (strContains (strToLower disposition) "concurring" = true →
      get_abbreviation_and_justice description disposition =
        ("con", justiceSearch "concurring " true (strToLower description))) ∧
    (strContains (strToLower disposition) "concurring" = false →
     strContains (strToLower disposition) "dissenting" = true →
      get_abbreviation_and_justice description disposition =
        ("dis", justiceSearch "dissenting " true (strToLower description))) ∧
    (strContains (strToLower disposition) "concurring" = false →
     strContains (strToLower disposition) "dissenting" = false →
      (strContains (strToLower description) "memorandum" = true →
        get_abbreviation_and_justice description disposition = ("mem", none)) ∧
      (strContains (strToLower description) "memorandum" = false →
       strContains (strToLower description) "dissenting" = true →
        get_abbreviation_and_justice description disposition =
          ("dis", justiceSearch "dissenting " false (strToLower description))) ∧
      (strContains (strToLower description) "memorandum" = false →
       strContains (strToLower description) "dissenting" = false →
       strContains (strToLower description) "concurring" = true →
        get_abbreviation_and_justice description disposition =
          ("con", justiceSearch "concurring " false (strToLower description))) ∧
      (strContains (strToLower description) "memorandum" = false →
       strContains (strToLower description) "dissenting" = false →
       strContains (strToLower description) "concurring" = false →
       strContains (strToLower description) "opinion" = true →
        get_abbreviation_and_justice description disposition = ("op", none)) ∧
      (strContains (strToLower description) "memorandum" = false →
       strContains (strToLower description) "dissenting" = false →
       strContains (strToLower description) "concurring" = false →
       strContains (strToLower description) "opinion" = false →
        get_abbreviation_and_justice description disposition = ("", none))) := by
  refine ⟨fun h1 => ?_, fun h1 h2 => ?_, fun h1 h2 =>
    ⟨fun h3 => ?_, fun h3 h4 => ?_, fun h3 h4 h5 => ?_, fun h3 h4 h5 h6 => ?_,
     fun h3 h4 h5 h6 => ?_⟩⟩ <;>
    simp [get_abbreviation_and_justice, *]

/-- Witness for C5: a dissenting description with a chief-justice
author and a neutral disposition. -/
theorem c5_witness :
    get_abbreviation_and_justice "Dissenting Opinion by Chief Justice Brown" "" =
      ("dis", some "brown") := by
  have h := (c5_classification_amended "Dissenting Opinion by Chief Justice Brown" "").2.2
    (by decide) (by decide)
  exact (h.2.1 (by decide) (by decide)).trans (by decide)

/-- One coordinator pass preserves the ledger invariant: a key is in
`completed_combinations` exactly when a non-error log entry with that
key exists. -/
theorem scrape_inv_preserved (st : ScraperState) (c : Nat) (d : Date)
    (f : Except String (List Nat))
    (h : ∀ k, k ∈ st.completed_combinations ↔ hasNonErrorEntry st k) :
    ∀ k, k ∈ (scrape_court_date st c d f).1.completed_combinations ↔
      hasNonErrorEntry (scrape_court_date st c d f).1 k := by
  intro k
  by_cases hdone : is_combination_completed st c d
  · simp only [scrape_court_date, hdone, if_true]
    exact h k
  · simp only [scrape_court_date, hdone, Bool.false_eq_true, if_false]
    cases f with
    | error e =>
      simp only [hasNonErrorEntry, log_scrape_result, List.mem_append, List.mem_singleton]
      constructor
      · intro hk
        obtain ⟨en, hen, hkey, hne⟩ := (h k).mp hk
        exact ⟨en, Or.inl hen, hkey, hne⟩
      · rintro ⟨en, hen | rfl, hkey, hne⟩
        · exact (h k).mpr ⟨en, hen, hkey, hne⟩
        · simp [nonError] at hne
    | ok caseCounts =>
      have hnotin : st.completed_combinations.contains (comboKey c d) = false := by
        simpa [is_combination_completed] using hdone
      by_cases hempty : caseCounts.isEmpty
      · simp only [hempty, if_true]
        simp only [mark_combination_completed, log_scrape_result, hnotin, Bool.false_eq_true,
          if_false, hasNonErrorEntry, List.mem_append, List.mem_singleton]
        constructor
        · rintro (hk | rfl)
          · obtain ⟨en, hen, hkey, hne⟩ := (h k).mp hk
            exact ⟨en, Or.inl hen, hkey, hne⟩
          · exact ⟨⟨c, d, 0, 0, .no_cases⟩, Or.inr rfl, rfl, rfl⟩
        · rintro ⟨en, hen | rfl, hkey, hne⟩
          · exact Or.inl ((h k).mpr ⟨en, hen, hkey, hne⟩)
          · exact Or.inr hkey.symm
      · simp only [hempty, Bool.false_eq_true, if_false]
        simp only [mark_combination_completed, log_scrape_result, hnotin, Bool.false_eq_true,
          if_false, hasNonErrorEntry, List.mem_append, List.mem_singleton]
        constructor
        · rintro (hk | rfl)
          · obtain ⟨en, hen, hkey, hne⟩ := (h k).mp hk
            exact ⟨en, Or.inl hen, hkey, hne⟩
          · exact ⟨⟨c, d, caseCounts.length, caseCounts.foldl (· + ·) 0, .completed⟩,
              Or.inr rfl, rfl, rfl⟩
        · rintro ⟨en, hen | rfl, hkey, hne⟩
          · exact Or.inl ((h k).mpr ⟨en, hen, hkey, hne⟩)
          · exact Or.inr hkey.symm

/-- The ledger invariant holds along every run from the initial state. -/
theorem runPasses_inv (passes : List (Nat × Date × Except String (List Nat))) :
    ∀ k, k ∈ (runPasses initialScraperState passes).completed_combinations ↔
      hasNonErrorEntry (runPasses initialScraperState passes) k := by
  suffices h : ∀ st, (∀ k, k ∈ st.completed_combinations ↔ hasNonErrorEntry st k) →
      ∀ k, k ∈ (runPasses st passes).completed_combinations ↔
        hasNonErrorEntry (runPasses st passes) k by
    refine h initialScraperState ?_
    intro k
    simp [initialScraperState, hasNonErrorEntry]
  induction passes with
  | nil => intro st h; exact h
  | cons p rest ih =>
    intro st h
    obtain ⟨c, d, f⟩ := p
    exact ih _ (scrape_inv_preserved st c d f h)

/-- Claim C1: `is_combination_completed` is true exactly when a
non-error completion record for the unit's derived key exists; a pass
ending in an error status leaves the completed set unchanged (so the
unit stays eligible for retry), while a unit already completed is
skipped with no work and no state change. -/
theorem c1_ledger_completion (passes : List (Nat × Date × Except String (List Nat)))
    (c : Nat) (d : Date) (st : ScraperState) (f : Except String (List Nat)) (e : String) :
    (is_combination_completed (runPasses initialScraperState passes) c d = true ↔
      hasNonErrorEntry (runPasses initialScraperState passes) (comboKey c d)) ∧
    ((scrape_court_date st c d (.error e)).1.completed_combinations =
      st.completed_combinations) ∧
    (is_combination_completed st c d = true → scrape_court_date st c d f = (st, 0)) := by
  refine ⟨?_, ?_, fun h => by simp [scrape_court_date, h]⟩
  · rw [show is_combination_completed (runPasses initialScraperState passes) c d = true ↔
        comboKey c d ∈ (runPasses initialScraperState passes).completed_combinations by
      simp [is_combination_completed]]
    exact runPasses_inv passes (comboKey c d)
  · by_cases hdone : is_combination_completed st c d
    · simp [scrape_court_date, hdone]
    · simp [scrape_court_date, hdone, log_scrape_result]

/-- Witness for C1: after a completed pass over court 3 on 2025-02-04,
a later pass over the same unit is skipped without any state change. -/
theorem c1_witness :
    scrape_court_date (runPasses initialScraperState [(3, ⟨2025, 2, 4⟩, .ok [1])]) 3
      ⟨2025, 2, 4⟩ (.ok [2]) =
      (runPasses initialScraperState [(3, ⟨2025, 2, 4⟩, .ok [1])], 0) :=
  (c1_ledger_completion [] 3 ⟨2025, 2, 4⟩
    (runPasses initialScraperState [(3, ⟨2025, 2, 4⟩, .ok [1])]) (.ok [2]) "x").2.2
    (by decide)

/-- Reading back the path just written. -/
theorem fsWrite_lookup_self (fs : FS) (p c : String) :
    fsLookup (fsWrite fs p c) p = some c := by
  simp [fsWrite, fsLookup]

/-- Writing one path leaves every other path unchanged. -/
theorem fsWrite_lookup_ne {p r : String} (hr : r ≠ p) (fs : FS) (c : String) :
    fsLookup (fsWrite fs p c) r = fsLookup fs r := by
  show List.lookup r ((p, c) :: fs) = List.lookup r fs
  simp [List.lookup, beq_eq_false_iff_ne.mpr hr]

/-- Reading after a removal: the removed path is gone, the rest is
unchanged. -/
theorem fsRemove_lookup (fs : FS) (p r : String) :
    fsLookup (fsRemove fs p) r = if r = p then none else fsLookup fs r := by
  induction fs with
  | nil => simp [fsRemove, fsLookup, List.lookup]
  | cons e rest ih =>
    obtain ⟨k, v⟩ := e
    by_cases hk : k = p
    · rw [show fsRemove ((k, v) :: rest) p = fsRemove rest p by
        simp [fsRemove, List.filter_cons, hk]]
      rw [ih]
      by_cases hr : r = p
      · simp [hr]
      · have : (r == k) = false := beq_eq_false_iff_ne.mpr (by rw [hk]; exact hr)
        simp [hr, fsLookup, List.lookup, this]
    · rw [show fsRemove ((k, v) :: rest) p = (k, v) :: fsRemove rest p by
        simp [fsRemove, List.filter_cons, hk]]
      by_cases hrk : r = k
      · have hb : (r == k) = true := beq_iff_eq.mpr hrk
        have hrp : ¬r = p := by rw [hrk]; exact hk
        simp [fsLookup, List.lookup, hb, hrp]
      · have hb : (r == k) = false := beq_eq_false_iff_ne.mpr hrk
        simp only [fsLookup, List.lookup, hb] at ih ⊢
        exact ih

/-- Core properties of the download loop: the outcome does not depend
on the target path or the prior filesystem; only the target path is
written; and a successful run leaves the same validated (non-empty,
`%PDF`-prefixed) content at the target path in every run. -/
theorem downloadAttempts_props (att : Nat → AttemptResp) (m : Nat) :
    ∀ (l : List Nat) (p q : String) (fs gs : FS),
      ((downloadAttempts att m p l fs).ok = (downloadAttempts att m q l gs).ok) ∧
      (∀ r, r ≠ p → fsLookup (downloadAttempts att m p l fs).fs r = fsLookup fs r) ∧
      ((downloadAttempts att m p l fs).ok = true →
        ∃ c, fsLookup (downloadAttempts att m p l fs).fs p = some c ∧
             fsLookup (downloadAttempts att m q l gs).fs q = some c ∧
             0 < c.length ∧ "%PDF".data.isPrefixOf c.data = true) := by
  intro l
  induction l with
  | nil =>
    intro p q fs gs
    exact ⟨rfl, fun r _ => rfl, fun h => by simp [downloadAttempts] at h⟩
  | cons a rest ih =>
    intro p q fs gs
    simp only [downloadAttempts]
    cases hatt : att a with
    | netError =>
      by_cases hlt : a < m - 1
      · simp only [if_pos hlt]
        exact ih p q fs gs
      · simp only [if_neg hlt]
        exact ⟨by trivial, fun r _ => by trivial, fun h => by simp at h⟩
    | payload ct content =>
      by_cases hct : strToLower ct ≠ "application/pdf"
      · simp only [if_pos hct]
        by_cases heq : a = m - 1
        · simp only [if_pos heq]
          exact ⟨by trivial, fun r _ => by trivial, fun h => by simp at h⟩
        · simp only [if_neg heq]
          exact ih p q fs gs
      · simp only [if_neg hct]
        by_cases hz : content.length = 0
        · simp only [if_pos hz]
          by_cases hlt : a < m - 1
          · simp only [if_pos hlt]
            have ihh := ih p q (fsWrite fs p content) (fsWrite gs q content)
            refine ⟨ihh.1, ?_, ihh.2.2⟩
            intro r hr
            rw [ihh.2.1 r hr]
            exact fsWrite_lookup_ne hr fs content
          · simp only [if_neg hlt]
            refine ⟨by trivial, ?_, fun h => by simp at h⟩
            intro r hr
            exact fsWrite_lookup_ne hr fs content
        · simp only [if_neg hz]
          by_cases hmg : "%PDF".data.isPrefixOf content.data = false
          · simp only [if_pos hmg]
            by_cases hlt : a < m - 1
            · simp only [if_pos hlt]
              have ihh := ih p q (fsWrite fs p content) (fsWrite gs q content)
              refine ⟨ihh.1, ?_, ihh.2.2⟩
              intro r hr
              rw [ihh.2.1 r hr]
              exact fsWrite_lookup_ne hr fs content
            · simp only [if_neg hlt]
              refine ⟨by trivial, ?_, fun h => by simp at h⟩
              intro r hr
              exact fsWrite_lookup_ne hr fs content
          · simp only [if_neg hmg]
            refine ⟨by trivial, ?_, ?_⟩
            · intro r hr
              exact fsWrite_lookup_ne hr fs content
            · intro _
              refine ⟨content, fsWrite_lookup_self fs p content, fsWrite_lookup_self gs q content,
                Nat.pos_of_ne_zero hz, ?_⟩
              revert hmg
              cases "%PDF".data.isPrefixOf content.data <;> simp

/-- Counterexample for C3 as stated: when the server keeps answering
200 with content type `application/pdf` but an HTML body, `download_pdf`
fails after its retries yet leaves the invalid file at the target path
— there is no temporary-name-and-swap step. -/
theorem c3_counterexample :
    (download_pdf badAttempt 3 "opinions/doc.pdf" []).ok = false ∧
    fsLookup (download_pdf badAttempt 3 "opinions/doc.pdf" []).fs "opinions/doc.pdf" =
      some "<html>error page</html>" ∧
    "%PDF".data.isPrefixOf "<html>error page</html>".data = false := by
  decide

/-- Claim C3 (amended): `download_pdf` writes the response body directly
to the target path and validates afterwards, so a failed call may leave
a zero-byte or non-PDF file at that path; when it returns success the
file at the target path is non-empty and begins with the PDF magic
bytes, and no other path is ever written. -/
theorem c3_download_validation (att : Nat → AttemptResp) (m : Nat) (p : String) (fs : FS) :
    ((download_pdf att m p fs).ok = true →
      ∃ c, fsLookup (download_pdf att m p fs).fs p = some c ∧
        0 < c.length ∧ "%PDF".data.isPrefixOf c.data = true) ∧
    (∀ q, q ≠ p → fsLookup (download_pdf att m p fs).fs q = fsLookup fs q) := by
  have h := downloadAttempts_props att m (List.range m) p p fs fs
  refine ⟨fun hok => ?_, h.2.1⟩
  obtain ⟨c, hc1, _, hc3, hc4⟩ := h.2.2 hok
  exact ⟨c, hc1, hc3, hc4⟩

/-- Witness for C3: a server returning a valid PDF leaves validated
content at the target path and touches no other path. -/
theorem c3_witness :
    (∃ c, fsLookup (download_pdf goodAttempt 3 "opinions/doc.pdf" []).fs "opinions/doc.pdf" =
        some c ∧ 0 < c.length ∧ "%PDF".data.isPrefixOf c.data = true) ∧
    fsLookup (download_pdf goodAttempt 3 "opinions/doc.pdf" []).fs "other.pdf" =
      fsLookup [] "other.pdf" := by
  have h := c3_download_validation goodAttempt 3 "opinions/doc.pdf" []
  exact ⟨h.1 (by decide), h.2 "other.pdf" (by decide)⟩

/-- The success of a download depends only on the attempt sequence, not
on the target path or the filesystem. -/
theorem download_pdf_ok_eq (att : Nat → AttemptResp) (m : Nat) (p q : String) (fs gs : FS) :
    (download_pdf att m p fs).ok = (download_pdf att m q gs).ok :=
  (downloadAttempts_props att m (List.range m) p q fs gs).1

/-- A download writes only its own target path. -/
theorem download_pdf_frame (att : Nat → AttemptResp) (m : Nat) (p : String) (fs : FS)
    (r : String) (hr : r ≠ p) :
    fsLookup (download_pdf att m p fs).fs r = fsLookup fs r :=
  (downloadAttempts_props att m (List.range m) p p fs fs).2.1 r hr

/-- After a successful download, the target path holds the canonical
fetched content of that attempt sequence. -/
theorem download_pdf_lookup_fetched (att : Nat → AttemptResp) (m : Nat) (p : String) (fs : FS)
    (h : (download_pdf att m p fs).ok = true) :
    fsLookup (download_pdf att m p fs).fs p =
      some ((fsLookup (download_pdf att m p []).fs p).getD "") := by
  simp only [download_pdf] at h ⊢
  obtain ⟨c, h1, h2, _, _⟩ := (downloadAttempts_props att m (List.range m) p p fs []).2.2 h
  rw [h1, h2]
  rfl

theorem stringJoin_singleton (s : String) : String.join [s] = s := by
  show String.join [s] = s
  simp [String.join]

/-- Mapping then filter-mapping a lookup that is `some` everywhere. -/
theorem filterMap_map_all_some {α : Type} (f : α → String) (g : α → String)
    (look : String → Option String) :
    ∀ ss : List α, (∀ o ∈ ss, look (f o) = some (g o)) →
      (ss.map f).filterMap look = ss.map g := by
  intro ss
  induction ss with
  | nil => intro _; rfl
  | cons o rest ih =>
    intro h
    simp only [List.map_cons, List.filterMap_cons, h o (List.mem_cons_self _ _)]
    rw [ih (fun o' ho' => h o' (List.mem_cons_of_mem _ ho'))]

/-- Folding removals: a path is readable afterwards iff it was not
removed, with its old content. -/
theorem foldl_fsRemove_lookup (ps : List String) :
    ∀ (fs : FS) (q : String),
      fsLookup (ps.foldl (fun acc p => fsRemove acc p) fs) q =
        if q ∈ ps then none else fsLookup fs q := by
  induction ps with
  | nil => intro fs q; simp
  | cons p rest ih =>
    intro fs q
    simp only [List.foldl_cons]
    rw [ih (fsRemove fs p) q, fsRemove_lookup]
    by_cases h1 : q ∈ rest
    · simp [h1]
    · by_cases h2 : q = p <;> simp [h1, h2]

/-- Specification of the per-case download loop: which temp files are
collected (in order), which opinions failed, the frame condition, and
the contents of the successfully downloaded temp files. -/
theorem downloadLoop_spec (net : String → Nat → AttemptResp) (m : Nat) (folder : String) :
    ∀ (l : List Opinion) (fs : FS),
      (downloadLoop net m folder l fs).1 =
        (l.filter (fun o => fetchOk net m folder o)).map
          (fun o => joinPath folder o.temp_filename) ∧
      (downloadLoop net m folder l fs).2.1 = l.filter (fun o => !(fetchOk net m folder o)) ∧
      (∀ q, (∀ o ∈ l, q ≠ joinPath folder o.temp_filename) →
        fsLookup (downloadLoop net m folder l fs).2.2 q = fsLookup fs q) ∧
      ((l.map (fun o => joinPath folder o.temp_filename)).Nodup →
        ∀ o ∈ l, fetchOk net m folder o = true →
          fsLookup (downloadLoop net m folder l fs).2.2 (joinPath folder o.temp_filename) =
            some (fetchedContent net m folder o)) := by
  intro l
  induction l with
  | nil =>
    intro fs
    exact ⟨rfl, rfl, fun q _ => rfl, fun _ o ho => absurd ho (List.not_mem_nil o)⟩
  | cons o rest ih =>
    intro fs
    have hok : (download_pdf (net o.url) m (joinPath folder o.temp_filename) fs).ok =
        fetchOk net m folder o :=
      download_pdf_ok_eq (net o.url) m _ _ fs []
    have ihr := ih (download_pdf (net o.url) m (joinPath folder o.temp_filename) fs).fs
    simp only [downloadLoop]
    by_cases hf : fetchOk net m folder o
    · simp only [hok, hf, if_true]
      refine ⟨?_, ?_, ?_, ?_⟩
      · simp only [List.filter_cons, hf, if_true, List.map_cons]
        rw [ihr.1]
      · simp only [List.filter_cons, hf]
        simpa using ihr.2.1
      · intro q hq
        rw [ihr.2.2.1 q (fun o' ho' => hq o' (List.mem_cons_of_mem _ ho'))]
        exact download_pdf_frame (net o.url) m _ fs q (hq o (List.mem_cons_self _ _))
      · intro hnd o' ho' hfo'
        rcases List.mem_cons.mp ho' with rfl | ho''
        · have hni : joinPath folder o'.temp_filename ∉
              rest.map (fun x => joinPath folder x.temp_filename) :=
            (List.nodup_cons.mp (by simpa using hnd)).1
          rw [ihr.2.2.1 _ (fun x hx hcon =>
            hni (by rw [hcon]; exact List.mem_map_of_mem _ hx))]
          exact download_pdf_lookup_fetched (net o'.url) m _ fs (hok.trans hfo')
        · exact ihr.2.2.2 (List.Nodup.of_cons (by simpa using hnd)) o' ho'' hfo'
    · have hfb : fetchOk net m folder o = false := by
        revert hf
        cases fetchOk net m folder o <;> simp
      simp only [hok, hfb, Bool.false_eq_true, if_false]
      refine ⟨?_, ?_, ?_, ?_⟩
      · simp only [List.filter_cons, hfb, Bool.false_eq_true, if_false]
        rw [ihr.1]
      · simp only [List.filter_cons, hfb]
        simpa using ihr.2.1
      · intro q hq
        rw [ihr.2.2.1 q (fun o' ho' => hq o' (List.mem_cons_of_mem _ ho'))]
        exact download_pdf_frame (net o.url) m _ fs q (hq o (List.mem_cons_self _ _))
      · intro hnd o' ho' hfo'
        rcases List.mem_cons.mp ho' with rfl | ho''
        · rw [hfo'] at hfb
          cases hfb
        · exact ihr.2.2.2 (List.Nodup.of_cons (by simpa using hnd)) o' ho'' hfo'

/-- Full specification of `process_case_opinions` when the final
artifact does not yet exist: one download per fragment, failures
warned, and the artifact produced exactly from the successfully
fetched fragments in sorted order (with their temp files gone), or no
artifact and a failure record when none succeeded. -/
theorem process_case_spec (net : String → Nat → AttemptResp) (m : Nat) (case_number : String)
    (opinions : List Opinion) (folder : String) (fs : FS)
    (hnd : ((sortOpinions opinions).map (fun o => joinPath folder o.temp_filename)).Nodup)
    (hfp : ∀ o ∈ sortOpinions opinions,
      joinPath folder (case_number ++ ".pdf") ≠ joinPath folder o.temp_filename)
    (hnf : fsLookup fs (joinPath folder (case_number ++ ".pdf")) = none) :
    (process_case_opinions net m case_number opinions folder fs).downloadCalls =
      (sortOpinions opinions).length ∧
    (process_case_opinions net m case_number opinions folder fs).warnedFailures =
      !((sortOpinions opinions).filter (fun o => !(fetchOk net m folder o))).isEmpty ∧
    ((sortOpinions opinions).filter (fun o => fetchOk net m folder o) = [] →
      (process_case_opinions net m case_number opinions folder fs).ret = 0 ∧
      (process_case_opinions net m case_number opinions folder fs).dbSaved = false ∧
      (process_case_opinions net m case_number opinions folder fs).warnedNone = true ∧
      fsLookup (process_case_opinions net m case_number opinions folder fs).fs
        (joinPath folder (case_number ++ ".pdf")) = none) ∧
    (∀ s1 srest,
      (sortOpinions opinions).filter (fun o => fetchOk net m folder o) = s1 :: srest →
      (process_case_opinions net m case_number opinions folder fs).ret = 1 ∧
      (process_case_opinions net m case_number opinions folder fs).dbSaved = true ∧
      (process_case_opinions net m case_number opinions folder fs).warnedNone = false ∧
      fsLookup (process_case_opinions net m case_number opinions folder fs).fs
        (joinPath folder (case_number ++ ".pdf")) =
        some (String.join ((s1 :: srest).map (fun o => fetchedContent net m folder o))) ∧
      (∀ o ∈ s1 :: srest,
        fsLookup (process_case_opinions net m case_number opinions folder fs).fs
          (joinPath folder o.temp_filename) = none)) := by
  have hdl := downloadLoop_spec net m folder (sortOpinions opinions) fs
  have hframe :
      fsLookup (downloadLoop net m folder (sortOpinions opinions) fs).2.2
        (joinPath folder (case_number ++ ".pdf")) = none := by
    rw [hdl.2.2.1 _ hfp]
    exact hnf
  simp only [process_case_opinions, hnf, Option.isSome_none, Bool.false_eq_true, if_false]
  rw [hdl.1, hdl.2.1]
  cases hs : (sortOpinions opinions).filter (fun o => fetchOk net m folder o) with
  | nil =>
    simp only [List.map_nil]
    refine ⟨by trivial, by trivial, fun _ => ⟨by trivial, by trivial, by trivial, hframe⟩, ?_⟩
    intro s1 srest heq
    exact absurd heq (by simp)
  | cons s1 srest =>
    have hsub : ∀ o ∈ s1 :: srest,
        o ∈ sortOpinions opinions ∧ fetchOk net m folder o = true := by
      intro o ho
      rw [← hs] at ho
      exact List.mem_filter.mp ho
    have hcont : ∀ o ∈ s1 :: srest,
        fsLookup (downloadLoop net m folder (sortOpinions opinions) fs).2.2
          (joinPath folder o.temp_filename) = some (fetchedContent net m folder o) :=
      fun o ho => hdl.2.2.2 hnd o (hsub o ho).1 (hsub o ho).2
    cases srest with
    | nil =>
      simp only [List.map_cons, List.map_nil]
      refine ⟨by trivial, by trivial, ?_, ?_⟩
      · intro heq
        exact absurd heq (by simp)
      · intro s1' srest' heq
        injection heq with h1 h2
        subst h1
        subst h2
        have hc1 := hcont s1 (List.mem_cons_self _ _)
        simp only [osRename, hc1]
        refine ⟨by trivial, by trivial, by trivial, ?_, ?_⟩
        · rw [fsWrite_lookup_self]
          simp [stringJoin_singleton]
        · intro o ho
          rcases List.mem_cons.mp ho with rfl | hcon
          · rw [fsWrite_lookup_ne (Ne.symm (hfp o (hsub o ho).1)), fsRemove_lookup]
            simp
          · exact absurd hcon (List.not_mem_nil o)
    | cons s2 srest2 =>
      simp only [List.map_cons]
      have hFPnot : joinPath folder (case_number ++ ".pdf") ∉
          (s1 :: s2 :: srest2).map (fun o => joinPath folder o.temp_filename) := by
        intro hmm
        obtain ⟨o, ho, heq⟩ := List.mem_map.mp hmm
        exact hfp o (hsub o ho).1 heq.symm
      have hmap : ((s1 :: s2 :: srest2).map (fun o => joinPath folder o.temp_filename)).filterMap
          (fun p => fsLookup (downloadLoop net m folder (sortOpinions opinions) fs).2.2 p) =
          (s1 :: s2 :: srest2).map (fun o => fetchedContent net m folder o) :=
        filterMap_map_all_some _ _ _ _ hcont
      refine ⟨by trivial, by trivial, ?_, ?_⟩
      · intro heq
        exact absurd heq (by simp)
      · intro s1' srest' heq
        injection heq with h1 h2
        subst h1
        subst h2
        refine ⟨by trivial, by trivial, by trivial, ?_, ?_⟩
        · simp only [concatenate_pdfs]
          rw [foldl_fsRemove_lookup]
          rw [if_neg (by simpa using hFPnot)]
          rw [fsWrite_lookup_self]
          rw [show (joinPath folder s1.temp_filename :: joinPath folder s2.temp_filename ::
              srest2.map (fun o => joinPath folder o.temp_filename)).filterMap
              (fun p => fsLookup (downloadLoop net m folder (sortOpinions opinions) fs).2.2 p) =
            (s1 :: s2 :: srest2).map (fun o => fetchedContent net m folder o) by
            simpa using hmap]
          simp
        · intro o ho
          rw [foldl_fsRemove_lookup]
          rw [if_pos]
          simpa using List.mem_map_of_mem (fun o => joinPath folder o.temp_filename) ho

/-- Claim C6: one download is attempted per fragment; if at least one
fragment is fetched successfully an artifact is produced whose pages
are exactly the successfully fetched fragments' contents in sorted
order (single success: direct rename; several: concatenation), the
failed fragments are only warned about while the case is still saved
to the database, and the successful temp files are removed; if zero
fragments succeed no artifact is produced and the failure is recorded.
(Temp paths are assumed pairwise distinct and distinct from the final
path, as the generated names are.) -/
theorem c6_partial_failure (net : String → Nat → AttemptResp) (m : Nat) (case_number : String)
    (opinions : List Opinion) (folder : String) (fs : FS)
    (hnd : ((sortOpinions opinions).map (fun o => joinPath folder o.temp_filename)).Nodup)
    (hfp : ∀ o ∈ sortOpinions opinions,
      joinPath folder (case_number ++ ".pdf") ≠ joinPath folder o.temp_filename)
    (hnf : fsLookup fs (joinPath folder (case_number ++ ".pdf")) = none) :
    (process_case_opinions net m case_number opinions folder fs).downloadCalls =
      (sortOpinions opinions).length ∧
    (process_case_opinions net m case_number opinions folder fs).warnedFailures =
      !((sortOpinions opinions).filter (fun o => !(fetchOk net m folder o))).isEmpty ∧
    ((sortOpinions opinions).filter (fun o => fetchOk net m folder o) ≠ [] →
      (process_case_opinions net m case_number opinions folder fs).ret = 1 ∧
      (process_case_opinions net m case_number opinions folder fs).dbSaved = true ∧
      (process_case_opinions net m case_number opinions folder fs).warnedNone = false ∧
      fsLookup (process_case_opinions net m case_number opinions folder fs).fs
        (joinPath folder (case_number ++ ".pdf")) =
        some (String.join
          (((sortOpinions opinions).filter (fun o => fetchOk net m folder o)).map
            (fun o => fetchedContent net m folder o))) ∧
      (∀ o ∈ (sortOpinions opinions).filter (fun o => fetchOk net m folder o),
        fsLookup (process_case_opinions net m case_number opinions folder fs).fs
          (joinPath folder o.temp_filename) = none)) ∧
    ((sortOpinions opinions).filter (fun o => fetchOk net m folder o) = [] →
      (process_case_opinions net m case_number opinions folder fs).ret = 0 ∧
      (process_case_opinions net m case_number opinions folder fs).dbSaved = false ∧
      (process_case_opinions net m case_number opinions folder fs).warnedNone = true ∧
      fsLookup (process_case_opinions net m case_number opinions folder fs).fs
        (joinPath folder (case_number ++ ".pdf")) = none) := by
  have h := process_case_spec net m case_number opinions folder fs hnd hfp hnf
  refine ⟨h.1, h.2.1, ?_, h.2.2.1⟩
  intro hne
  cases hcase : (sortOpinions opinions).filter (fun o => fetchOk net m folder o) with
  | nil => exact absurd hcase hne
  | cons s1 srest => exact h.2.2.2 s1 srest hcase

/-- Witness for C6: of two fragments, the memorandum downloads and the
dissent fails every attempt; the artifact is still produced from the
memorandum alone, and the failure is warned about. -/
theorem c6_witness :
    (process_case_opinions partialNet 3 "01-23-00751-CR" [memFragment, disFragment]
      "data/20250204" []).ret = 1 ∧
    fsLookup (process_case_opinions partialNet 3 "01-23-00751-CR" [memFragment, disFragment]
        "data/20250204" []).fs
      (joinPath "data/20250204" ("01-23-00751-CR" ++ ".pdf")) = some "%PDF-1.4 mem" ∧
    (process_case_opinions partialNet 3 "01-23-00751-CR" [memFragment, disFragment]
      "data/20250204" []).warnedFailures = true := by
  have h := c6_partial_failure partialNet 3 "01-23-00751-CR" [memFragment, disFragment]
    "data/20250204" [] (by decide) (by decide) (by decide)
  have h3 := h.2.2.1 (by decide)
  exact ⟨h3.1, h3.2.2.2.1.trans (by decide), h.2.1.trans (by decide)⟩

/-- Claim C7: if the final artifact path already exists,
`process_case_opinions` performs no network I/O and no file writes
(the state is returned unchanged); consequently, running the assembler
a second time for a case group whose first run produced an artifact is
a no-op. -/
theorem c7_idempotent (net : String → Nat → AttemptResp) (m : Nat) (case_number : String)
    (opinions : List Opinion) (folder : String) (fs : FS) :
    ((fsLookup fs (joinPath folder (case_number ++ ".pdf"))).isSome = true →
      process_case_opinions net m case_number opinions folder fs =
        ⟨fs, 0, 0, false, false, false⟩) ∧
    (((sortOpinions opinions).map (fun o => joinPath folder o.temp_filename)).Nodup →
     (∀ o ∈ sortOpinions opinions,
       joinPath folder (case_number ++ ".pdf") ≠ joinPath folder o.temp_filename) →
     fsLookup fs (joinPath folder (case_number ++ ".pdf")) = none →
     (sortOpinions opinions).filter (fun o => fetchOk net m folder o) ≠ [] →
      process_case_opinions net m case_number opinions folder
        (process_case_opinions net m case_number opinions folder fs).fs =
        ⟨(process_case_opinions net m case_number opinions folder fs).fs,
          0, 0, false, false, false⟩) := by
  have short : ∀ gs : FS, (fsLookup gs (joinPath folder (case_number ++ ".pdf"))).isSome = true →
      process_case_opinions net m case_number opinions folder gs =
        ⟨gs, 0, 0, false, false, false⟩ := by
    intro gs hgs
    simp [process_case_opinions, hgs]
  refine ⟨short fs, ?_⟩
  intro hnd hfp hnf hne
  have h := process_case_spec net m case_number opinions folder fs hnd hfp hnf
  cases hcase : (sortOpinions opinions).filter (fun o => fetchOk net m folder o) with
  | nil => exact absurd hcase hne
  | cons s1 srest =>
    have h4 := h.2.2.2 s1 srest hcase
    refine short _ ?_
    rw [h4.2.2.2.1]
    rfl

/-- Witness for C7: a pre-existing artifact short-circuits the
assembler, and a second run after a producing first run is a no-op. -/
theorem c7_witness :
    process_case_opinions fullNet 3 "01-23-00751-CR" [memFragment] "d"
      [(joinPath "d" ("01-23-00751-CR" ++ ".pdf"), "%PDF-1.4 old")] =
      ⟨[(joinPath "d" ("01-23-00751-CR" ++ ".pdf"), "%PDF-1.4 old")], 0, 0,
        false, false, false⟩ ∧
    process_case_opinions fullNet 3 "01-23-00751-CR" [memFragment] "d"
      (process_case_opinions fullNet 3 "01-23-00751-CR" [memFragment] "d" []).fs =
      ⟨(process_case_opinions fullNet 3 "01-23-00751-CR" [memFragment] "d" []).fs,
        0, 0, false, false, false⟩ := by
  refine ⟨(c7_idempotent fullNet 3 "01-23-00751-CR" [memFragment] "d" _).1 (by decide),
    (c7_idempotent fullNet 3 "01-23-00751-CR" [memFragment] "d" []).2
      (by decide) (by decide) (by decide) (by decide)⟩

end PDRbot
